import Mathlib

/-!
# Verification of the museum_lightening shadow-geometry core

A shallow embedding of the algorithmic core of the repository
(`src/main.rs` and `src/geo_scaled.rs`) together with theorems settling
the specification claims.

Modelling conventions:
* `f32` coordinates are embedded as exact rationals (`ℚ`); arithmetic
  rounding of IEEE operations on finite values is abstracted away, but
  the special values produced by division by zero (infinities and NaN)
  are modelled faithfully by the type `ML.XQ` below, because the
  boundary ray caster deliberately relies on them.
* Fallible steps (the `unimplemented!()` stubs, the `Option::unwrap` on
  the intersection reduce, and hull inputs contaminated by non-finite
  coordinates) are modelled with `Option`.
* The boolean-operations primitive of the external `geo` crate
  (`BooleanOps::union` / `BooleanOps::intersection`) is not part of this
  repository; functions that call it take it as an explicit parameter
  `bu` / `bi`, and theorems that need facts about it state them as
  hypotheses.
-/

set_option maxRecDepth 1000000

namespace ML

/-- A 2D point, mirroring `Vec2` / `Coord<f32>` with exact rational
coordinates. -/
abbrev Point : Type := ℚ × ℚ

/-- Extended rationals modelling the IEEE `f32` special values that the
boundary ray caster produces by dividing by zero: finite values,
`+∞`, `-∞` and NaN. -/
inductive XQ where
  | fin (q : ℚ)
  | posInf
  | negInf
  | nan
deriving DecidableEq

/-- IEEE division: a finite quotient when the divisor is nonzero,
otherwise `±∞` according to the sign of the dividend, and NaN for
`0 / 0`. Mirrors `f32` division as used in
`calculate_intersection_to_world_bondary`. -/
def xdiv (a b : ℚ) : XQ :=
  if b = 0 then
    if a = 0 then XQ.nan else if 0 < a then XQ.posInf else XQ.negInf
  else
    XQ.fin (a / b)

/-- IEEE `<` comparison on extended values: NaN compares false with
everything; `-∞ <` everything finite `< +∞`. -/
def xlt : XQ → XQ → Bool
  | XQ.nan, _ => false
  | _, XQ.nan => false
  | XQ.negInf, XQ.negInf => false
  | XQ.negInf, _ => true
  | _, XQ.negInf => false
  | XQ.posInf, _ => false
  | XQ.fin _, XQ.posInf => true
  | XQ.fin a, XQ.fin b => decide (a < b)

/-- IEEE multiplication on extended values (`0 * ∞ = NaN`). -/
def xmul : XQ → XQ → XQ
  | XQ.nan, _ => XQ.nan
  | _, XQ.nan => XQ.nan
  | XQ.fin a, XQ.fin b => XQ.fin (a * b)
  | XQ.fin a, XQ.posInf =>
    if a = 0 then XQ.nan else if 0 < a then XQ.posInf else XQ.negInf
  | XQ.fin a, XQ.negInf =>
    if a = 0 then XQ.nan else if 0 < a then XQ.negInf else XQ.posInf
  | XQ.posInf, XQ.fin b =>
    if b = 0 then XQ.nan else if 0 < b then XQ.posInf else XQ.negInf
  | XQ.negInf, XQ.fin b =>
    if b = 0 then XQ.nan else if 0 < b then XQ.negInf else XQ.posInf
  | XQ.posInf, XQ.posInf => XQ.posInf
  | XQ.posInf, XQ.negInf => XQ.negInf
  | XQ.negInf, XQ.posInf => XQ.negInf
  | XQ.negInf, XQ.negInf => XQ.posInf

/-- IEEE addition on extended values (`∞ + (-∞) = NaN`). -/
def xadd : XQ → XQ → XQ
  | XQ.nan, _ => XQ.nan
  | _, XQ.nan => XQ.nan
  | XQ.fin a, XQ.fin b => XQ.fin (a + b)
  | XQ.fin _, XQ.posInf => XQ.posInf
  | XQ.fin _, XQ.negInf => XQ.negInf
  | XQ.posInf, XQ.fin _ => XQ.posInf
  | XQ.negInf, XQ.fin _ => XQ.negInf
  | XQ.posInf, XQ.posInf => XQ.posInf
  | XQ.posInf, XQ.negInf => XQ.nan
  | XQ.negInf, XQ.posInf => XQ.nan
  | XQ.negInf, XQ.negInf => XQ.negInf

/-- A point one or both of whose coordinates may be non-finite. -/
abbrev XPoint : Type := XQ × XQ

/-- View a finite point as an `XPoint`. -/
def finPt (p : Point) : XPoint := (XQ.fin p.1, XQ.fin p.2)

/-- The world boundary, an axis-aligned rectangle given as
`(min corner, max corner)`, mirroring the `(Vec2, Vec2)` tuple in
`main.rs`. -/
abbrev Bnd : Type := Point × Point

/-- `p` lies strictly inside the boundary. -/
def StrictlyInside (p : Point) (wb : Bnd) : Prop :=
  wb.1.1 < p.1 ∧ p.1 < wb.2.1 ∧ wb.1.2 < p.2 ∧ p.2 < wb.2.2

instance (p : Point) (wb : Bnd) : Decidable (StrictlyInside p wb) := by
  unfold StrictlyInside; infer_instance

/-- `p` lies within or on the boundary. -/
def WithinBnd (p : Point) (wb : Bnd) : Prop :=
  wb.1.1 ≤ p.1 ∧ p.1 ≤ wb.2.1 ∧ wb.1.2 ≤ p.2 ∧ p.2 ≤ wb.2.2

instance (p : Point) (wb : Bnd) : Decidable (WithinBnd p wb) := by
  unfold WithinBnd; infer_instance

/-- Translation of `calculate_intersection_to_world_bondary` from
`src/main.rs` (lines 332–365): the exit point of the ray from `u`
through `v` out of the boundary `world_boundary`.  The divisions, the
`<` tests and the arithmetic on the parametric distances `s` and `t`
follow IEEE semantics via `XQ`, because the Rust code performs them on
`f32` without guarding division by zero. -/
def calculate_intersection_to_world_bondary (u v : Point) (world_boundary : Bnd) :
    XPoint :=
  let ray : Point := (v.1 - u.1, v.2 - u.2)
  let s : XQ :=
    if ray.1 < 0 then xdiv (world_boundary.1.1 - u.1) ray.1
    else xdiv (world_boundary.2.1 - u.1) ray.1
  let t : XQ :=
    if ray.2 < 0 then xdiv (world_boundary.1.2 - u.2) ray.2
    else xdiv (world_boundary.2.2 - u.2) ray.2
  if xlt s t then
    if ray.1 < 0 then
      (XQ.fin world_boundary.1.1, xadd (XQ.fin u.2) (xmul (XQ.fin ray.2) s))
    else
      (XQ.fin world_boundary.2.1, xadd (XQ.fin u.2) (xmul (XQ.fin ray.2) s))
  else
    if ray.2 < 0 then
      (xadd (XQ.fin u.1) (xmul (XQ.fin ray.1) t), XQ.fin world_boundary.1.2)
    else
      (xadd (XQ.fin u.1) (xmul (XQ.fin ray.1) t), XQ.fin world_boundary.2.2)

/-- An oriented rectangle, mirroring the bevy `Transform` fields the
code reads: `translation` (the centre), `scale` (width, height) and the
rotation.  The Rust code extracts the z-Euler angle of the quaternion
and forms `Vec2::from_angle(angle) = (cos angle, sin angle)`; the
embedding stores that unit vector directly as `rotation`. -/
structure Transform2 where
  translation : Point
  rotation : Point
  scale : Point
deriving DecidableEq

/-- glam's `Vec2::rotate`: `r.rotate v` rotates `v` by the angle of `r`
(complex multiplication). -/
def vec2_rotate (r v : Point) : Point :=
  (r.1 * v.1 - r.2 * v.2, r.2 * v.1 + r.1 * v.2)

/-- Componentwise point addition (`Vec2 + Vec2`). -/
def padd (a b : Point) : Point := (a.1 + b.1, a.2 + b.2)

/-- Translation of `calculate_vertices` from `src/main.rs` (lines
318–330): the four corners of the oriented rectangle, in the order
bottom-left, bottom-right, top-right, top-left of the local frame. -/
def calculate_vertices (transform : Transform2) : List Point :=
  let rotation := transform.rotation
  let size := transform.scale
  let translation := transform.translation
  [ padd (vec2_rotate rotation (-size.1 / 2, -size.2 / 2)) translation,
    padd (vec2_rotate rotation (size.1 / 2, -size.2 / 2)) translation,
    padd (vec2_rotate rotation (size.1 / 2, size.2 / 2)) translation,
    padd (vec2_rotate rotation (-size.1 / 2, size.2 / 2)) translation ]

/-- `WORLD_WIDTH` from `src/main.rs`. -/
def WORLD_WIDTH : ℚ := 960

/-- `WORLD_HEIGHT` from `src/main.rs`. -/
def WORLD_HEIGHT : ℚ := 720

/-- The constant `WORLD_VERTICES` from
`calculate_shadow_polygon_from_obstacle` (the four corners of the
world). -/
def WORLD_VERTICES : List Point :=
  [ (WORLD_WIDTH / 2, WORLD_HEIGHT / 2),
    (-WORLD_WIDTH / 2, WORLD_HEIGHT / 2),
    (-WORLD_WIDTH / 2, -WORLD_HEIGHT / 2),
    (WORLD_WIDTH / 2, -WORLD_HEIGHT / 2) ]

/-- The world boundary tuple that `update` passes to the shadow
builder: `((-W/2, -H/2), (W/2, H/2))`. -/
def worldBnd : Bnd :=
  ((-WORLD_WIDTH / 2, -WORLD_HEIGHT / 2), (WORLD_WIDTH / 2, WORLD_HEIGHT / 2))

/-- The 2D cross product of `a - o` and `b - o`; positive when the turn
`o → a → b` is counter-clockwise. -/
def cross (o a b : Point) : ℚ :=
  (a.1 - o.1) * (b.2 - o.2) - (a.2 - o.2) * (b.1 - o.1)

/-- Every point of `S` lies weakly to the right of the directed line
`p → q`. -/
def allRightOf (S : List Point) (p q : Point) : Bool :=
  S.all (fun r => decide (cross p q r ≤ 0))

/-- The first point of `S` (in list order) distinct from `p` that
supports `S` on its right; the gift-wrapping successor of `p`. -/
def nextHullPoint (S : List Point) (p : Point) : Option Point :=
  S.find? (fun q => decide (q ≠ p) && allRightOf S p q)

/-- The gift-wrapping walk: starting after `p`, follow supporting
edges until the walk closes at `start`.  Returns `none` when the walk
fails to close within the fuel (possible only on degenerate inputs). -/
def giftWrapAux (S : List Point) (start : Point) : Point → Nat → Option (List Point)
  | _, 0 => none
  | p, fuel + 1 =>
    match nextHullPoint S p with
    | none => none
    | some q =>
      if q = start then some [] else (giftWrapAux S start q fuel).map (q :: ·)

/-- Lexicographic minimum of two points. -/
def lexMin (x y : Point) : Point :=
  if y.1 < x.1 ∨ (y.1 = x.1 ∧ y.2 < x.2) then y else x

/-- Modelled from the spec: the geo crate's `ConvexHull`
(`multi_points.convex_hull()` in `main.rs`) is external-crate code not
under `src/`; the glossary describes it as the "smallest convex polygon
enclosing a set of points".  Modelled as a gift-wrapping walk returning
the hull as a clockwise ring starting at the lexicographically smallest
input point; when the supporting walk fails to close (possible only on
degenerate collinear inputs) the model degenerates to the single
starting vertex. -/
def convex_hull (S : List Point) : List Point :=
  match S with
  | [] => []
  | x :: xs =>
    let m := xs.foldl lexMin x
    match giftWrapAux S m m (S.length + 1) with
    | some l => m :: l
    | none => [m]

/-- `r` lies on the closed segment from `p` to `q`. -/
def onSeg (p q r : Point) : Bool :=
  decide (cross p q r = 0) && decide (min p.1 q.1 ≤ r.1) &&
    decide (r.1 ≤ max p.1 q.1) && decide (min p.2 q.2 ≤ r.2) &&
    decide (r.2 ≤ max p.2 q.2)

/-- Closed segments `p1 q1` and `p2 q2` intersect (proper crossing or
touching, including collinear overlap at an endpoint). -/
def segsIntersect (p1 q1 p2 q2 : Point) : Bool :=
  let d1 := cross p2 q2 p1
  let d2 := cross p2 q2 q1
  let d3 := cross p1 q1 p2
  let d4 := cross p1 q1 q2
  (decide (d1 * d2 < 0) && decide (d3 * d4 < 0)) ||
    onSeg p2 q2 p1 || onSeg p2 q2 q1 || onSeg p1 q1 p2 || onSeg p1 q1 q2

/-- The cyclic edge list of a vertex ring. -/
def ringEdges (vs : List Point) : List (Point × Point) :=
  vs.zip (vs.rotate 1)

/-- `p` lies inside or on the convex polygon with vertex ring `vs`
(either winding). -/
def pointInConvexPoly (vs : List Point) (p : Point) : Bool :=
  let cs := (ringEdges vs).map (fun e => cross e.1 e.2 p)
  cs.all (fun c => decide (0 ≤ c)) || cs.all (fun c => decide (c ≤ 0))

/-- Modelled from the spec: the geo crate's
`obstacle_polygon.intersects(&Line::new(light, v))` (external-crate
code not under `src/`), the "segment-polygon intersection" test of
§4.3: the closed segment from `a` to `b` meets the convex polygon with
vertex ring `vs` on its boundary or interior. -/
def segmentIntersectsPoly (vs : List Point) (a b : Point) : Bool :=
  (ringEdges vs).any (fun e => segsIntersect a b e.1 e.2) ||
    pointInConvexPoly vs a || pointInConvexPoly vs b

/-- Keep a list of extended points only when all are finite. -/
def allFinite : List XPoint → Option (List Point)
  | [] => some []
  | (XQ.fin a, XQ.fin b) :: ps => (allFinite ps).map ((a, b) :: ·)
  | _ => none

/-- The point set fed to the convex hull by
`calculate_shadow_polygon_from_obstacle`: (1) the obstacle's four
corners, (2) each corner's projection away from the light onto the
world boundary, (3) each `WORLD_VERTICES` corner whose segment to the
light intersects the obstacle polygon. -/
def hull_input (light_position : Point) (obstacle_transform : Transform2)
    (world_boundary : Bnd) : List XPoint :=
  let obstacle_vertices := calculate_vertices obstacle_transform
  obstacle_vertices.map finPt ++
    obstacle_vertices.map
      (fun v => calculate_intersection_to_world_bondary light_position v world_boundary) ++
    (WORLD_VERTICES.filter
      (fun v => segmentIntersectsPoly obstacle_vertices light_position v)).map finPt

/-- Translation of `calculate_shadow_polygon_from_obstacle` from
`src/main.rs` (lines 367–408).  The Rust function unconditionally
returns `Polygon<f32>`; when some boundary projection has a NaN or
infinite coordinate (a zero ray direction), the external convex hull
runs on non-finite `f32` points and its behaviour is unspecified — the
model makes that contamination explicit by returning `none`, and
otherwise returns the hull of the (finite) point set. -/
def calculate_shadow_polygon_from_obstacle (light_position : Point)
    (obstacle_transform : Transform2) (world_boundary : Bnd) : Option (List Point) :=
  (allFinite (hull_input light_position obstacle_transform world_boundary)).map convex_hull

/-- A `geo::Polygon<f32>`: an exterior ring and a list of interior
rings, each a list of coordinates. -/
structure GPolygon where
  exterior : List Point
  interiors : List (List Point)
deriving DecidableEq

/-- A `geo::MultiPolygon<f32>`: a list of polygons. -/
abbrev GMultiPolygon : Type := List GPolygon

/-- Rust's `f32::round`: round half away from zero. -/
def rustRound (q : ℚ) : ℤ :=
  if q < 0 then -(⌊-q + 1 / 2⌋) else ⌊q + 1 / 2⌋

/-- Translation of `<Polygon<f32> as Scaling>::to_integer_polygon` from
`src/geo_scaled.rs` (lines 11–35): multiply each coordinate of the
exterior and interior rings by `scale` and round. -/
def Polygon.to_integer_polygon (p : GPolygon) (scale : ℚ) : GPolygon :=
  { exterior := p.exterior.map
      (fun c => ((rustRound (c.1 * scale) : ℚ), (rustRound (c.2 * scale) : ℚ))),
    interiors := p.interiors.map (fun interior => interior.map
      (fun c => ((rustRound (c.1 * scale) : ℚ), (rustRound (c.2 * scale) : ℚ)))) }

/-- Translation of `<Polygon<f32> as Scaling>::from_integer_polygon`
from `src/geo_scaled.rs` (lines 36–60): divide each coordinate by
`scale`. -/
def Polygon.from_integer_polygon (p : GPolygon) (scale : ℚ) : GPolygon :=
  { exterior := p.exterior.map (fun c => (c.1 / scale, c.2 / scale)),
    interiors := p.interiors.map (fun interior => interior.map
      (fun c => (c.1 / scale, c.2 / scale))) }

/-- Translation of `<MultiPolygon<f32> as Scaling>::to_integer_polygon`
(`src/geo_scaled.rs`, lines 65–67). -/
def MultiPolygon.to_integer_polygon (mp : GMultiPolygon) (scale : ℚ) : GMultiPolygon :=
  mp.map (fun p => Polygon.to_integer_polygon p scale)

/-- Translation of
`<MultiPolygon<f32> as Scaling>::from_integer_polygon`
(`src/geo_scaled.rs`, lines 68–73). -/
def MultiPolygon.from_integer_polygon (mp : GMultiPolygon) (scale : ℚ) : GMultiPolygon :=
  mp.map (fun p => Polygon.from_integer_polygon p scale)

/-- The type of the external `geo` crate's boolean primitive
(`BooleanOps::union` / `BooleanOps::intersection`), which is not part
of this repository; functions that call it take it as a parameter. -/
abbrev BOp : Type := GMultiPolygon → GMultiPolygon → GMultiPolygon

/-- Translation of `scaled_intersection` from `src/geo_scaled.rs`
(lines 86–93), with the external `BooleanOps::intersection` primitive
passed as `bi`. -/
def scaled_intersection (bi : BOp) (self other : GMultiPolygon) (scale : ℚ) :
    GMultiPolygon :=
  let p := MultiPolygon.to_integer_polygon self scale
  let q := MultiPolygon.to_integer_polygon other scale
  MultiPolygon.from_integer_polygon (bi p q) scale

/-- Translation of `scaled_union` from `src/geo_scaled.rs` (lines
94–101), with the external `BooleanOps::union` primitive passed as
`bu`. -/
def scaled_union (bu : BOp) (self other : GMultiPolygon) (scale : ℚ) :
    GMultiPolygon :=
  let p := MultiPolygon.to_integer_polygon self scale
  let q := MultiPolygon.to_integer_polygon other scale
  MultiPolygon.from_integer_polygon (bu p q) scale

/-- Translation of `xor` from `src/geo_scaled.rs` (lines 102–104): the
body is `unimplemented!()`, which always panics; modelled as always
`none`, never a multi-polygon. -/
def xor (_self _other : GMultiPolygon) : Option GMultiPolygon := none

/-- Translation of `difference` from `src/geo_scaled.rs` (lines
105–107): the body is `unimplemented!()`, which always panics; modelled
as always `none`, never a multi-polygon. -/
def difference (_self _other : GMultiPolygon) : Option GMultiPolygon := none

/-- The single-polygon multi-polygon `MultiPolygon::new(vec![polygon])`
built in `update` from one shadow polygon; the builder's `none`
(NaN-contaminated) outcome has no specifiable polygon and is modelled
as the empty multi-polygon. -/
def shadow_multi_polygon (light : Point) (obstacle : Transform2) (wb : Bnd) :
    GMultiPolygon :=
  match calculate_shadow_polygon_from_obstacle light obstacle wb with
  | some vs => [{ exterior := vs, interiors := [] }]
  | none => []

/-- Rust's `Iterator::reduce`: fold the tail with the head as initial
accumulator; `none` on an empty list. -/
def reduce1 {α : Type} (f : α → α → α) : List α → Option α
  | [] => none
  | x :: xs => some (xs.foldl f x)

/-- Translation of the shadow-region aggregation in `update` from
`src/main.rs` (lines 262–290): per light, fold the per-obstacle shadow
polygons with `scaled_union` starting from the empty multi-polygon;
then fold all per-light regions with `scaled_union` into the union
region, and `reduce` them with `scaled_intersection` into the
intersection region.  The Rust code calls `.unwrap()` on the reduce,
which panics when there are no lights; the panic is modelled by the
`Option` result. -/
def update (bu bi : BOp) (lights : List Point) (obstacles : List Transform2) :
    Option (GMultiPolygon × GMultiPolygon) :=
  let shadow_polygons := lights.map (fun light =>
    (obstacles.map (fun obstacle => shadow_multi_polygon light obstacle worldBnd)).foldl
      (fun fold polygon => scaled_union bu fold polygon 10) [])
  let shadow_polygon_union := shadow_polygons.foldl
    (fun fold polygon => scaled_union bu fold polygon 10) []
  match reduce1 (fun fold polygon => scaled_intersection bi fold polygon 10)
      shadow_polygons with
  | none => none
  | some inter => some (shadow_polygon_union, inter)

/-- The point `p` lies exactly on the perimeter of the boundary `wb`:
one coordinate equals a boundary edge value and the other lies within
the `[min, max]` range of the perpendicular axis. -/
def OnPerimeter (p : XPoint) (wb : Bnd) : Prop :=
  (∃ y, p = (XQ.fin wb.1.1, XQ.fin y) ∧ wb.1.2 ≤ y ∧ y ≤ wb.2.2) ∨
  (∃ y, p = (XQ.fin wb.2.1, XQ.fin y) ∧ wb.1.2 ≤ y ∧ y ≤ wb.2.2) ∨
  (∃ x, p = (XQ.fin x, XQ.fin wb.1.2) ∧ wb.1.1 ≤ x ∧ x ≤ wb.2.1) ∨
  (∃ x, p = (XQ.fin x, XQ.fin wb.2.2) ∧ wb.1.1 ≤ x ∧ x ≤ wb.2.1)

/-- A vertex ring is convex: every vertex lies weakly to the right of
every directed edge of the ring. -/
def ConvexRing (vs : List Point) : Prop :=
  ∀ e ∈ ringEdges vs, ∀ w ∈ vs, cross e.1 e.2 w ≤ 0

/-- Every consecutive pair of the chain is a supporting edge of `S`
(all of `S` weakly to its right). -/
def ChainOk (S : List Point) : List Point → Prop
  | [] => True
  | [_] => True
  | p :: q :: rest => allRightOf S p q = true ∧ ChainOk S (q :: rest)

/-- Apply `f` to every coordinate of every ring of a multi-polygon. -/
def mapMPCoords (f : ℚ → ℚ) (mp : GMultiPolygon) : GMultiPolygon :=
  mp.map (fun p =>
    { exterior := p.exterior.map (fun c => (f c.1, f c.2)),
      interiors := p.interiors.map (fun interior => interior.map (fun c => (f c.1, f c.2))) })

/-- Modelled from the spec (§4.4): the scaled union "multiplies every
coordinate of both operands by `scale`, rounds to the nearest integer,
performs the set operation on the resulting integer-valued (but still
real-typed) polygons using an exact/robust planar boolean algorithm,
then divides the result's coordinates by `scale`"; the underlying
boolean union is the parameter `bu`. -/
def spec_scaled_union (bu : BOp) (a b : GMultiPolygon) (scale : ℚ) : GMultiPolygon :=
  mapMPCoords (fun c => c / scale)
    (bu (mapMPCoords (fun c => (rustRound (c * scale) : ℚ)) a)
        (mapMPCoords (fun c => (rustRound (c * scale) : ℚ)) b))

/-- Modelled from the spec (§4.4), as `spec_scaled_union` but with the
underlying boolean intersection `bi`. -/
def spec_scaled_intersection (bi : BOp) (a b : GMultiPolygon) (scale : ℚ) : GMultiPolygon :=
  mapMPCoords (fun c => c / scale)
    (bi (mapMPCoords (fun c => (rustRound (c * scale) : ℚ)) a)
        (mapMPCoords (fun c => (rustRound (c * scale) : ℚ)) b))

/-- Squared Euclidean distance between two points. -/
def sqDist (a b : Point) : ℚ := (b.1 - a.1) ^ 2 + (b.2 - a.2) ^ 2

/-- The first obstacle spawned in `setup` (`src/main.rs`): centre
`(0, -200)`, rotation `0` (unit vector `(1, 0)`), size `60 × 100`. -/
def obstacleA : Transform2 :=
  { translation := (0, -200), rotation := (1, 0), scale := (60, 100) }

/-- A rotated rectangle used as a concrete witness input: centre
`(5, 7)`, rotation by the unit vector `(3/5, 4/5)`, size `2 × 4`. -/
def witnessT : Transform2 :=
  { translation := (5, 7), rotation := (3 / 5, 4 / 5), scale := (2, 4) }

theorem xlt_fin_fin (a b : ℚ) : xlt (XQ.fin a) (XQ.fin b) = decide (a < b) := rfl

theorem xlt_fin_posInf (a : ℚ) : xlt (XQ.fin a) XQ.posInf = true := rfl

theorem xlt_posInf (x : XQ) : xlt XQ.posInf x = false := by
  cases x <;> rfl

theorem xmul_fin_fin (a b : ℚ) : xmul (XQ.fin a) (XQ.fin b) = XQ.fin (a * b) := rfl

theorem xadd_fin_fin (a b : ℚ) : xadd (XQ.fin a) (XQ.fin b) = XQ.fin (a + b) := rfl

theorem xdiv_ne (a : ℚ) {b : ℚ} (hb : b ≠ 0) : xdiv a b = XQ.fin (a / b) := by
  unfold xdiv
  simp [hb]

theorem xdiv_pos_zero {a : ℚ} (ha : 0 < a) : xdiv a 0 = XQ.posInf := by
  unfold xdiv
  simp [ha, ha.ne']

/-- For a light strictly inside the boundary and a genuine ray
direction, the ray caster's result lies exactly on the boundary's
perimeter. -/
theorem rayExit_onPerimeter (u v : Point) (wb : Bnd)
    (hin : StrictlyInside u wb) (hne : v ≠ u) :
    OnPerimeter (calculate_intersection_to_world_bondary u v wb) wb := by
  obtain ⟨h1, h2, h3, h4⟩ := hin
  dsimp only [calculate_intersection_to_world_bondary]
  rcases lt_trichotomy (v.1 - u.1) 0 with hr1 | hr1 | hr1 <;>
    rcases lt_trichotomy (v.2 - u.2) 0 with hr2 | hr2 | hr2
  · -- r1 < 0, r2 < 0
    have hn1 : v.1 - u.1 ≠ 0 := ne_of_lt hr1
    have hn2 : v.2 - u.2 ≠ 0 := ne_of_lt hr2
    have ha : 0 < (wb.1.1 - u.1) / (v.1 - u.1) :=
      div_pos_iff.mpr (Or.inr ⟨by linarith, hr1⟩)
    have hb : 0 < (wb.1.2 - u.2) / (v.2 - u.2) :=
      div_pos_iff.mpr (Or.inr ⟨by linarith, hr2⟩)
    have eA : (v.1 - u.1) * ((wb.1.1 - u.1) / (v.1 - u.1)) = wb.1.1 - u.1 := by
      rw [mul_comm]; exact div_mul_cancel₀ _ hn1
    have eB : (v.2 - u.2) * ((wb.1.2 - u.2) / (v.2 - u.2)) = wb.1.2 - u.2 := by
      rw [mul_comm]; exact div_mul_cancel₀ _ hn2
    rw [if_pos hr1, if_pos hr2, xdiv_ne _ hn1, xdiv_ne _ hn2, xlt_fin_fin]
    simp only [decide_eq_true_eq]
    by_cases hab : (wb.1.1 - u.1) / (v.1 - u.1) < (wb.1.2 - u.2) / (v.2 - u.2)
    · rw [if_pos hab, if_pos hr1, xmul_fin_fin, xadd_fin_fin]
      have hmul := mul_lt_mul_of_neg_left hab hr2
      have hlt : (v.2 - u.2) * ((wb.1.1 - u.1) / (v.1 - u.1)) < 0 :=
        mul_neg_of_neg_of_pos hr2 ha
      exact Or.inl ⟨_, rfl, by linarith, by linarith⟩
    · rw [if_neg hab, if_pos hr2, xmul_fin_fin, xadd_fin_fin]
      have hba := not_lt.mp hab
      have hmul := mul_le_mul_of_nonpos_left hba (le_of_lt hr1)
      have hlt : (v.1 - u.1) * ((wb.1.2 - u.2) / (v.2 - u.2)) < 0 :=
        mul_neg_of_neg_of_pos hr1 hb
      exact Or.inr (Or.inr (Or.inl ⟨_, rfl, by linarith, by linarith⟩))
  · -- r1 < 0, r2 = 0
    have hn1 : v.1 - u.1 ≠ 0 := ne_of_lt hr1
    have ha : 0 < (wb.1.1 - u.1) / (v.1 - u.1) :=
      div_pos_iff.mpr (Or.inr ⟨by linarith, hr1⟩)
    have hnlt : ¬(v.2 - u.2 < 0) := by rw [hr2]; exact lt_irrefl 0
    rw [if_pos hr1, if_neg hnlt, xdiv_ne _ hn1, hr2,
      xdiv_pos_zero (by linarith : (0:ℚ) < wb.2.2 - u.2), xlt_fin_posInf,
      if_pos rfl, if_pos hr1, xmul_fin_fin, xadd_fin_fin]
    have hz : (0:ℚ) * ((wb.1.1 - u.1) / (v.1 - u.1)) = 0 := zero_mul _
    exact Or.inl ⟨_, rfl, by linarith, by linarith⟩
  · -- r1 < 0, r2 > 0
    have hn1 : v.1 - u.1 ≠ 0 := ne_of_lt hr1
    have hn2 : v.2 - u.2 ≠ 0 := ne_of_gt hr2
    have ha : 0 < (wb.1.1 - u.1) / (v.1 - u.1) :=
      div_pos_iff.mpr (Or.inr ⟨by linarith, hr1⟩)
    have hb : 0 < (wb.2.2 - u.2) / (v.2 - u.2) :=
      div_pos_iff.mpr (Or.inl ⟨by linarith, hr2⟩)
    have hnlt : ¬(v.2 - u.2 < 0) := not_lt.mpr (le_of_lt hr2)
    have eA : (v.1 - u.1) * ((wb.1.1 - u.1) / (v.1 - u.1)) = wb.1.1 - u.1 := by
      rw [mul_comm]; exact div_mul_cancel₀ _ hn1
    have eD : (v.2 - u.2) * ((wb.2.2 - u.2) / (v.2 - u.2)) = wb.2.2 - u.2 := by
      rw [mul_comm]; exact div_mul_cancel₀ _ hn2
    rw [if_pos hr1, if_neg hnlt, xdiv_ne _ hn1, xdiv_ne _ hn2, xlt_fin_fin]
    simp only [decide_eq_true_eq]
    by_cases hab : (wb.1.1 - u.1) / (v.1 - u.1) < (wb.2.2 - u.2) / (v.2 - u.2)
    · rw [if_pos hab, if_pos hr1, xmul_fin_fin, xadd_fin_fin]
      have hmul := mul_lt_mul_of_pos_left hab hr2
      have hgt : 0 < (v.2 - u.2) * ((wb.1.1 - u.1) / (v.1 - u.1)) :=
        mul_pos hr2 ha
      exact Or.inl ⟨_, rfl, by linarith, by linarith⟩
    · rw [if_neg hab, if_neg hnlt, xmul_fin_fin, xadd_fin_fin]
      have hba := not_lt.mp hab
      have hmul := mul_le_mul_of_nonpos_left hba (le_of_lt hr1)
      have hlt : (v.1 - u.1) * ((wb.2.2 - u.2) / (v.2 - u.2)) < 0 :=
        mul_neg_of_neg_of_pos hr1 hb
      exact Or.inr (Or.inr (Or.inr ⟨_, rfl, by linarith, by linarith⟩))
  · -- r1 = 0, r2 < 0
    have hn2 : v.2 - u.2 ≠ 0 := ne_of_lt hr2
    have hb : 0 < (wb.1.2 - u.2) / (v.2 - u.2) :=
      div_pos_iff.mpr (Or.inr ⟨by linarith, hr2⟩)
    have hnlt : ¬(v.1 - u.1 < 0) := by rw [hr1]; exact lt_irrefl 0
    rw [if_neg hnlt, if_pos hr2, hr1,
      xdiv_pos_zero (by linarith : (0:ℚ) < wb.2.1 - u.1), xdiv_ne _ hn2,
      xlt_posInf, if_neg (by simp), if_pos hr2, xmul_fin_fin, xadd_fin_fin]
    have hz : (0:ℚ) * ((wb.1.2 - u.2) / (v.2 - u.2)) = 0 := zero_mul _
    exact Or.inr (Or.inr (Or.inl ⟨_, rfl, by linarith, by linarith⟩))
  · -- r1 = 0, r2 = 0: v = u, contradiction
    exact absurd (Prod.ext (by linarith) (by linarith)) hne
  · -- r1 = 0, r2 > 0
    have hn2 : v.2 - u.2 ≠ 0 := ne_of_gt hr2
    have hb : 0 < (wb.2.2 - u.2) / (v.2 - u.2) :=
      div_pos_iff.mpr (Or.inl ⟨by linarith, hr2⟩)
    have hnlt1 : ¬(v.1 - u.1 < 0) := by rw [hr1]; exact lt_irrefl 0
    have hnlt2 : ¬(v.2 - u.2 < 0) := not_lt.mpr (le_of_lt hr2)
    rw [if_neg hnlt1, if_neg hnlt2, hr1,
      xdiv_pos_zero (by linarith : (0:ℚ) < wb.2.1 - u.1), xdiv_ne _ hn2,
      xlt_posInf, if_neg (by simp), if_neg hnlt2, xmul_fin_fin, xadd_fin_fin]
    have hz : (0:ℚ) * ((wb.2.2 - u.2) / (v.2 - u.2)) = 0 := zero_mul _
    exact Or.inr (Or.inr (Or.inr ⟨_, rfl, by linarith, by linarith⟩))
  · -- r1 > 0, r2 < 0
    have hn1 : v.1 - u.1 ≠ 0 := ne_of_gt hr1
    have hn2 : v.2 - u.2 ≠ 0 := ne_of_lt hr2
    have ha : 0 < (wb.2.1 - u.1) / (v.1 - u.1) :=
      div_pos_iff.mpr (Or.inl ⟨by linarith, hr1⟩)
    have hb : 0 < (wb.1.2 - u.2) / (v.2 - u.2) :=
      div_pos_iff.mpr (Or.inr ⟨by linarith, hr2⟩)
    have hnlt1 : ¬(v.1 - u.1 < 0) := not_lt.mpr (le_of_lt hr1)
    have eC : (v.1 - u.1) * ((wb.2.1 - u.1) / (v.1 - u.1)) = wb.2.1 - u.1 := by
      rw [mul_comm]; exact div_mul_cancel₀ _ hn1
    have eB : (v.2 - u.2) * ((wb.1.2 - u.2) / (v.2 - u.2)) = wb.1.2 - u.2 := by
      rw [mul_comm]; exact div_mul_cancel₀ _ hn2
    rw [if_neg hnlt1, if_pos hr2, xdiv_ne _ hn1, xdiv_ne _ hn2, xlt_fin_fin]
    simp only [decide_eq_true_eq]
    by_cases hab : (wb.2.1 - u.1) / (v.1 - u.1) < (wb.1.2 - u.2) / (v.2 - u.2)
    · rw [if_pos hab, if_neg hnlt1, xmul_fin_fin, xadd_fin_fin]
      have hmul := mul_lt_mul_of_neg_left hab hr2
      have hlt : (v.2 - u.2) * ((wb.2.1 - u.1) / (v.1 - u.1)) < 0 :=
        mul_neg_of_neg_of_pos hr2 ha
      exact Or.inr (Or.inl ⟨_, rfl, by linarith, by linarith⟩)
    · rw [if_neg hab, if_pos hr2, xmul_fin_fin, xadd_fin_fin]
      have hba := not_lt.mp hab
      have hmul := mul_le_mul_of_nonneg_left hba (le_of_lt hr1)
      have hgt : 0 < (v.1 - u.1) * ((wb.1.2 - u.2) / (v.2 - u.2)) :=
        mul_pos hr1 hb
      exact Or.inr (Or.inr (Or.inl ⟨_, rfl, by linarith, by linarith⟩))
  · -- r1 > 0, r2 = 0
    have hn1 : v.1 - u.1 ≠ 0 := ne_of_gt hr1
    have ha : 0 < (wb.2.1 - u.1) / (v.1 - u.1) :=
      div_pos_iff.mpr (Or.inl ⟨by linarith, hr1⟩)
    have hnlt1 : ¬(v.1 - u.1 < 0) := not_lt.mpr (le_of_lt hr1)
    have hnlt2 : ¬(v.2 - u.2 < 0) := by rw [hr2]; exact lt_irrefl 0
    rw [if_neg hnlt1, if_neg hnlt2, xdiv_ne _ hn1, hr2,
      xdiv_pos_zero (by linarith : (0:ℚ) < wb.2.2 - u.2), xlt_fin_posInf,
      if_pos rfl, if_neg hnlt1, xmul_fin_fin, xadd_fin_fin]
    have hz : (0:ℚ) * ((wb.2.1 - u.1) / (v.1 - u.1)) = 0 := zero_mul _
    exact Or.inr (Or.inl ⟨_, rfl, by linarith, by linarith⟩)
  · -- r1 > 0, r2 > 0
    have hn1 : v.1 - u.1 ≠ 0 := ne_of_gt hr1
    have hn2 : v.2 - u.2 ≠ 0 := ne_of_gt hr2
    have ha : 0 < (wb.2.1 - u.1) / (v.1 - u.1) :=
      div_pos_iff.mpr (Or.inl ⟨by linarith, hr1⟩)
    have hb : 0 < (wb.2.2 - u.2) / (v.2 - u.2) :=
      div_pos_iff.mpr (Or.inl ⟨by linarith, hr2⟩)
    have hnlt1 : ¬(v.1 - u.1 < 0) := not_lt.mpr (le_of_lt hr1)
    have hnlt2 : ¬(v.2 - u.2 < 0) := not_lt.mpr (le_of_lt hr2)
    have eC : (v.1 - u.1) * ((wb.2.1 - u.1) / (v.1 - u.1)) = wb.2.1 - u.1 := by
      rw [mul_comm]; exact div_mul_cancel₀ _ hn1
    have eD : (v.2 - u.2) * ((wb.2.2 - u.2) / (v.2 - u.2)) = wb.2.2 - u.2 := by
      rw [mul_comm]; exact div_mul_cancel₀ _ hn2
    rw [if_neg hnlt1, if_neg hnlt2, xdiv_ne _ hn1, xdiv_ne _ hn2, xlt_fin_fin]
    simp only [decide_eq_true_eq]
    by_cases hab : (wb.2.1 - u.1) / (v.1 - u.1) < (wb.2.2 - u.2) / (v.2 - u.2)
    · rw [if_pos hab, if_neg hnlt1, xmul_fin_fin, xadd_fin_fin]
      have hmul := mul_lt_mul_of_pos_left hab hr2
      have hgt : 0 < (v.2 - u.2) * ((wb.2.1 - u.1) / (v.1 - u.1)) :=
        mul_pos hr2 ha
      exact Or.inr (Or.inl ⟨_, rfl, by linarith, by linarith⟩)
    · rw [if_neg hab, if_neg hnlt2, xmul_fin_fin, xadd_fin_fin]
      have hba := not_lt.mp hab
      have hmul := mul_le_mul_of_nonneg_left hba (le_of_lt hr1)
      have hgt : 0 < (v.1 - u.1) * ((wb.2.2 - u.2) / (v.2 - u.2)) :=
        mul_pos hr1 hb
      exact Or.inr (Or.inr (Or.inr ⟨_, rfl, by linarith, by linarith⟩))

/-- For a light strictly inside the boundary and a genuine ray
direction, the ray caster's result is a finite point lying within the
boundary. -/
theorem rayExit_finite_within (u v : Point) (wb : Bnd)
    (hin : StrictlyInside u wb) (hne : v ≠ u) :
    ∃ p : Point, calculate_intersection_to_world_bondary u v wb = finPt p ∧
      WithinBnd p wb := by
  obtain ⟨h1, h2, h3, h4⟩ := hin
  rcases rayExit_onPerimeter u v wb ⟨h1, h2, h3, h4⟩ hne with
    ⟨y, hy, hy1, hy2⟩ | ⟨y, hy, hy1, hy2⟩ | ⟨x, hx, hx1, hx2⟩ | ⟨x, hx, hx1, hx2⟩
  · exact ⟨(wb.1.1, y), hy, le_refl _, by linarith, hy1, hy2⟩
  · exact ⟨(wb.2.1, y), hy, by linarith, le_refl _, hy1, hy2⟩
  · exact ⟨(x, wb.1.2), hx, hx1, hx2, le_refl _, by linarith⟩
  · exact ⟨(x, wb.2.2), hx, hx1, hx2, by linarith, le_refl _⟩

/-- C4: for every light position strictly inside the world boundary
and every through-point giving a non-zero ray direction,
`calculate_intersection_to_world_bondary` returns a point lying exactly
on the boundary's perimeter: one coordinate equals a boundary edge
value (min or max of that axis) and the other coordinate lies within
`[min, max]` of the perpendicular axis. -/
theorem C4_ray_exits_on_perimeter (u v : Point) (wb : Bnd)
    (hin : StrictlyInside u wb) (hne : v ≠ u) :
    OnPerimeter (calculate_intersection_to_world_bondary u v wb) wb :=
  rayExit_onPerimeter u v wb hin hne

/-- Witness for C4 at the light `(0, 0)` and through-point `(3, 7)`. -/
theorem C4_ray_exits_on_perimeter_witness :
    StrictlyInside (0, 0) worldBnd ∧ ((3, 7) : Point) ≠ (0, 0) ∧
      OnPerimeter (calculate_intersection_to_world_bondary (0, 0) (3, 7) worldBnd)
        worldBnd :=
  ⟨by with_unfolding_all decide, by norm_num,
    C4_ray_exits_on_perimeter (0, 0) (3, 7) worldBnd (by with_unfolding_all decide)
      (by norm_num)⟩

/-- C5: for a light strictly inside the boundary, a ray with a zero x
component and non-zero y component does not crash the caster: the
division by zero makes the vertical-edge distance infinite, the
horizontal branch dominates, and the result is the finite point with
the light's x coordinate on the min- or max-y edge; symmetrically for a
zero y component. -/
theorem C5_zero_ray_component (u v : Point) (wb : Bnd)
    (hin : StrictlyInside u wb) :
    (v.1 = u.1 → v.2 ≠ u.2 →
      calculate_intersection_to_world_bondary u v wb =
        (XQ.fin u.1, XQ.fin (if v.2 - u.2 < 0 then wb.1.2 else wb.2.2))) ∧
    (v.2 = u.2 → v.1 ≠ u.1 →
      calculate_intersection_to_world_bondary u v wb =
        (XQ.fin (if v.1 - u.1 < 0 then wb.1.1 else wb.2.1), XQ.fin u.2)) := by
  obtain ⟨h1, h2, h3, h4⟩ := hin
  constructor
  · intro hx hy
    have hr1 : v.1 - u.1 = 0 := sub_eq_zero.mpr hx
    have hn2 : v.2 - u.2 ≠ 0 := sub_ne_zero.mpr hy
    have hnlt1 : ¬(v.1 - u.1 < 0) := by rw [hr1]; exact lt_irrefl 0
    dsimp only [calculate_intersection_to_world_bondary]
    rcases lt_or_gt_of_ne hn2 with hr2 | hr2
    · rw [if_neg hnlt1, if_pos hr2, hr1,
        xdiv_pos_zero (by linarith : (0:ℚ) < wb.2.1 - u.1), xdiv_ne _ hn2,
        xlt_posInf, if_neg (by simp), if_pos hr2, xmul_fin_fin, xadd_fin_fin,
        if_pos hr2]
      simp
    · have hnlt2 : ¬(v.2 - u.2 < 0) := not_lt.mpr (le_of_lt hr2)
      rw [if_neg hnlt1, if_neg hnlt2, hr1,
        xdiv_pos_zero (by linarith : (0:ℚ) < wb.2.1 - u.1), xdiv_ne _ hn2,
        xlt_posInf, if_neg (by simp), if_neg hnlt2, xmul_fin_fin, xadd_fin_fin,
        if_neg hnlt2]
      simp
  · intro hy hx
    have hr2 : v.2 - u.2 = 0 := sub_eq_zero.mpr hy
    have hn1 : v.1 - u.1 ≠ 0 := sub_ne_zero.mpr hx
    have hnlt2 : ¬(v.2 - u.2 < 0) := by rw [hr2]; exact lt_irrefl 0
    dsimp only [calculate_intersection_to_world_bondary]
    rcases lt_or_gt_of_ne hn1 with hr1 | hr1
    · rw [if_pos hr1, if_neg hnlt2, hr2, xdiv_ne _ hn1,
        xdiv_pos_zero (by linarith : (0:ℚ) < wb.2.2 - u.2), xlt_fin_posInf,
        if_pos rfl, if_pos hr1, xmul_fin_fin, xadd_fin_fin, if_pos hr1]
      simp
    · have hnlt1 : ¬(v.1 - u.1 < 0) := not_lt.mpr (le_of_lt hr1)
      rw [if_neg hnlt1, if_neg hnlt2, hr2, xdiv_ne _ hn1,
        xdiv_pos_zero (by linarith : (0:ℚ) < wb.2.2 - u.2), xlt_fin_posInf,
        if_pos rfl, if_neg hnlt1, xmul_fin_fin, xadd_fin_fin, if_neg hnlt1]
      simp

/-- Witness for C5: from the light `(0, 0)` the vertical ray through
`(0, 5)` exits at `(0, 360)` and the horizontal ray through `(5, 0)`
exits at `(480, 0)`. -/
theorem C5_zero_ray_component_witness :
    StrictlyInside (0, 0) worldBnd ∧
      calculate_intersection_to_world_bondary (0, 0) (0, 5) worldBnd =
        (XQ.fin 0, XQ.fin 360) ∧
      calculate_intersection_to_world_bondary (0, 0) (5, 0) worldBnd =
        (XQ.fin 480, XQ.fin 0) := by
  refine ⟨by with_unfolding_all decide, ?_, ?_⟩
  · rw [(C5_zero_ray_component (0, 0) (0, 5) worldBnd
      (by with_unfolding_all decide)).1 rfl (by norm_num)]
    norm_num [worldBnd, WORLD_WIDTH, WORLD_HEIGHT]
  · rw [(C5_zero_ray_component (0, 0) (5, 0) worldBnd
      (by with_unfolding_all decide)).2 rfl (by norm_num)]
    norm_num [worldBnd, WORLD_WIDTH, WORLD_HEIGHT]

/-- C7: for every rectangle (with a genuine rotation, i.e. a unit
rotation vector), `calculate_vertices` returns exactly 4 points, in the
fixed order bottom-left, bottom-right, top-right, top-left of the local
frame (half-extent offsets rotated and translated by the centre); their
centroid equals the rectangle's centre and the squared side lengths
equal the squared width and height, regardless of rotation. -/
theorem C7_vertices (t : Transform2)
    (hunit : t.rotation.1 ^ 2 + t.rotation.2 ^ 2 = 1) :
    calculate_vertices t =
      [ padd (vec2_rotate t.rotation (-t.scale.1 / 2, -t.scale.2 / 2)) t.translation,
        padd (vec2_rotate t.rotation (t.scale.1 / 2, -t.scale.2 / 2)) t.translation,
        padd (vec2_rotate t.rotation (t.scale.1 / 2, t.scale.2 / 2)) t.translation,
        padd (vec2_rotate t.rotation (-t.scale.1 / 2, t.scale.2 / 2)) t.translation ] ∧
    (calculate_vertices t).length = 4 ∧
    (∀ v0 v1 v2 v3 : Point, calculate_vertices t = [v0, v1, v2, v3] →
      (((v0.1 + v1.1 + v2.1 + v3.1) / 4, (v0.2 + v1.2 + v2.2 + v3.2) / 4) : Point) =
          t.translation ∧
        sqDist v0 v1 = t.scale.1 ^ 2 ∧ sqDist v1 v2 = t.scale.2 ^ 2 ∧
        sqDist v2 v3 = t.scale.1 ^ 2 ∧ sqDist v3 v0 = t.scale.2 ^ 2) := by
  refine ⟨rfl, rfl, ?_⟩
  intro v0 v1 v2 v3 h
  dsimp only [calculate_vertices] at h
  simp only [List.cons.injEq, and_true] at h
  obtain ⟨h0, h1, h2, h3⟩ := h
  subst h0 h1 h2 h3
  dsimp only [padd, vec2_rotate, sqDist]
  refine ⟨Prod.ext ?_ ?_, ?_, ?_, ?_, ?_⟩
  · dsimp only; ring
  · dsimp only; ring
  · linear_combination t.scale.1 ^ 2 * hunit
  · linear_combination t.scale.2 ^ 2 * hunit
  · linear_combination t.scale.1 ^ 2 * hunit
  · linear_combination t.scale.2 ^ 2 * hunit

/-- Witness for C7 at the rotated rectangle `witnessT`. -/
theorem C7_vertices_witness :
    witnessT.rotation.1 ^ 2 + witnessT.rotation.2 ^ 2 = 1 ∧
    (calculate_vertices witnessT =
      [ padd (vec2_rotate witnessT.rotation (-witnessT.scale.1 / 2, -witnessT.scale.2 / 2))
          witnessT.translation,
        padd (vec2_rotate witnessT.rotation (witnessT.scale.1 / 2, -witnessT.scale.2 / 2))
          witnessT.translation,
        padd (vec2_rotate witnessT.rotation (witnessT.scale.1 / 2, witnessT.scale.2 / 2))
          witnessT.translation,
        padd (vec2_rotate witnessT.rotation (-witnessT.scale.1 / 2, witnessT.scale.2 / 2))
          witnessT.translation ] ∧
    (calculate_vertices witnessT).length = 4 ∧
    (∀ v0 v1 v2 v3 : Point, calculate_vertices witnessT = [v0, v1, v2, v3] →
      (((v0.1 + v1.1 + v2.1 + v3.1) / 4, (v0.2 + v1.2 + v2.2 + v3.2) / 4) : Point) =
          witnessT.translation ∧
        sqDist v0 v1 = witnessT.scale.1 ^ 2 ∧ sqDist v1 v2 = witnessT.scale.2 ^ 2 ∧
        sqDist v2 v3 = witnessT.scale.1 ^ 2 ∧ sqDist v3 v0 = witnessT.scale.2 ^ 2)) :=
  ⟨by norm_num [witnessT], C7_vertices witnessT (by norm_num [witnessT])⟩

/-- C2: `scaled_union` and `scaled_intersection` are exactly the
composition described by the spec: scale every coordinate of both
operands, round to the nearest integer, apply the underlying boolean
primitive to the snapped polygons, then divide every coordinate of the
result by the scale. -/
theorem C2_scaled_ops_compose (bu bi : BOp) (a b : GMultiPolygon) (scale : ℚ) :
    scaled_union bu a b scale = spec_scaled_union bu a b scale ∧
    scaled_intersection bi a b scale = spec_scaled_intersection bi a b scale :=
  ⟨rfl, rfl⟩

/-- C3: `xor` and `difference` always fail (they are
`unimplemented!()` stubs): they never return a multi-polygon, and in
particular never a silently empty one. -/
theorem C3_xor_difference_always_fail (a b : GMultiPolygon) :
    xor a b = none ∧ difference a b = none :=
  ⟨rfl, rfl⟩

/-- C10: with an empty list of lights the aggregation's intersection
reduce has no value to return and `update` aborts (the Rust code
panics on `.unwrap()`); no regions are produced. -/
theorem C10_zero_lights_abort (bu bi : BOp) (obstacles : List Transform2) :
    update bu bi [] obstacles = none := rfl

/-- C9: with at least one light and no obstacles, each per-light fold
starts from the empty multi-polygon and performs no unions, and —
provided the boolean primitive maps two empty multi-polygons to an
empty multi-polygon — the final union fold and intersection reduce
produce empty union and intersection regions. -/
theorem C9_empty_obstacles_empty_regions (bu bi : BOp) (l : Point) (ls : List Point)
    (hbu : bu [] [] = []) (hbi : bi [] [] = []) :
    update bu bi (l :: ls) [] = some ([], []) := by
  have hsu : scaled_union bu ([] : GMultiPolygon) ([] : GMultiPolygon) 10 = [] := by
    dsimp only [scaled_union, MultiPolygon.to_integer_polygon, List.map_nil]
    rw [hbu]
    rfl
  have hsi : scaled_intersection bi ([] : GMultiPolygon) ([] : GMultiPolygon) 10 = [] := by
    dsimp only [scaled_intersection, MultiPolygon.to_integer_polygon, List.map_nil]
    rw [hbi]
    rfl
  have hfoldu : ∀ xs : List Point,
      ((xs.map fun _ => ([] : GMultiPolygon)).foldl
        (fun fold polygon => scaled_union bu fold polygon 10) []) = [] := by
    intro xs
    induction xs with
    | nil => rfl
    | cons x xs ih => simpa only [List.map_cons, List.foldl_cons, hsu] using ih
  have hfoldi : ∀ xs : List Point,
      ((xs.map fun _ => ([] : GMultiPolygon)).foldl
        (fun fold polygon => scaled_intersection bi fold polygon 10) []) = [] := by
    intro xs
    induction xs with
    | nil => rfl
    | cons x xs ih => simpa only [List.map_cons, List.foldl_cons, hsi] using ih
  dsimp only [update, List.map_nil, List.foldl_nil, List.map_cons, List.foldl_cons, reduce1]
  rw [hsu]
  rw [hfoldu ls, hfoldi ls]

theorem cross_self (p w : Point) : cross p p w = 0 := by
  unfold cross; ring

theorem allRightOf_spec {S : List Point} {p q : Point}
    (h : allRightOf S p q = true) : ∀ r ∈ S, cross p q r ≤ 0 := by
  intro r hr
  have := List.all_eq_true.mp h r hr
  simpa using this

theorem foldl_lexMin_mem (x : Point) (xs : List Point) :
    xs.foldl lexMin x = x ∨ xs.foldl lexMin x ∈ xs := by
  induction xs generalizing x with
  | nil => exact Or.inl rfl
  | cons y ys ih =>
    have hxy : lexMin x y = x ∨ lexMin x y = y := by
      unfold lexMin; split <;> [exact Or.inr rfl; exact Or.inl rfl]
    rcases ih (lexMin x y) with h | h
    · rcases hxy with hx | hy
      · exact Or.inl (by rw [List.foldl_cons, h, hx])
      · exact Or.inr (by rw [List.foldl_cons, h, hy]; exact List.mem_cons_self _ _)
    · exact Or.inr (List.mem_cons_of_mem _ h)

theorem giftWrapAux_subset (S : List Point) (start : Point) :
    ∀ (fuel : Nat) (p : Point) (l : List Point),
      giftWrapAux S start p fuel = some l → ∀ q ∈ l, q ∈ S := by
  intro fuel
  induction fuel with
  | zero => intro p l h; cases h
  | succ n ih =>
    intro p l h
    dsimp only [giftWrapAux] at h
    split at h
    · cases h
    · rename_i q hn
      split at h
      · cases h
        intro r hr
        cases hr
      · cases hrec : giftWrapAux S start q n with
        | none => rw [hrec] at h; cases h
        | some l' =>
          rw [hrec, Option.map_some'] at h
          cases h
          intro r hr
          rcases List.mem_cons.mp hr with rfl | hr'
          · exact List.mem_of_find?_eq_some hn
          · exact ih q l' hrec r hr'

theorem giftWrapAux_chain (S : List Point) (start : Point) :
    ∀ (fuel : Nat) (p : Point) (l : List Point),
      giftWrapAux S start p fuel = some l → ChainOk S (p :: (l ++ [start])) := by
  intro fuel
  induction fuel with
  | zero => intro p l h; cases h
  | succ n ih =>
    intro p l h
    dsimp only [giftWrapAux] at h
    split at h
    · cases h
    · rename_i q hn
      have hpred := List.find?_some hn
      simp only [Bool.and_eq_true, decide_eq_true_eq] at hpred
      split at h
      · rename_i hq
        cases h
        exact ⟨hq ▸ hpred.2, trivial⟩
      · cases hrec : giftWrapAux S start q n with
        | none => rw [hrec] at h; cases h
        | some l' =>
          rw [hrec, Option.map_some'] at h
          cases h
          exact ⟨hpred.2, ih q l' hrec⟩

theorem chainOk_zip (S : List Point) :
    ∀ ch : List Point, ChainOk S ch →
      ∀ e ∈ ch.zip ch.tail, allRightOf S e.1 e.2 = true := by
  intro ch
  induction ch with
  | nil => intro _ e he; cases he
  | cons p rest ih =>
    cases rest with
    | nil => intro _ e he; cases he
    | cons q rest' =>
      intro h e he
      obtain ⟨h1, h2⟩ := h
      rcases List.mem_cons.mp he with rfl | he'
      · exact h1
      · exact ih h2 e he'

theorem zip_extend {α : Type} (xs zs ys : List α) (h : ys.length ≤ xs.length) :
    (xs ++ zs).zip ys = xs.zip ys := by
  induction xs generalizing ys with
  | nil =>
    have : ys = [] := List.eq_nil_of_length_eq_zero (Nat.le_zero.mp h)
    subst this
    simp
  | cons x xs' ih =>
    cases ys with
    | nil => simp
    | cons y ys' =>
      simp only [List.cons_append, List.zip_cons_cons]
      rw [ih ys' (Nat.le_of_succ_le_succ h)]

theorem convex_hull_subset (S : List Point) : ∀ q ∈ convex_hull S, q ∈ S := by
  cases S with
  | nil => intro q hq; cases hq
  | cons x xs =>
    intro q hq
    have hm : xs.foldl lexMin x ∈ x :: xs := by
      rcases foldl_lexMin_mem x xs with h | h
      · rw [h]; exact List.mem_cons_self _ _
      · exact List.mem_cons_of_mem _ h
    dsimp only [convex_hull] at hq
    cases haux : giftWrapAux (x :: xs) (xs.foldl lexMin x) (xs.foldl lexMin x)
        ((x :: xs).length + 1) with
    | none =>
      rw [haux] at hq
      rcases List.mem_singleton.mp hq with rfl
      exact hm
    | some l =>
      rw [haux] at hq
      rcases List.mem_cons.mp hq with rfl | hq'
      · exact hm
      · exact giftWrapAux_subset (x :: xs) _ _ _ _ haux q hq'

theorem convex_hull_convex (S : List Point) : ConvexRing (convex_hull S) := by
  cases S with
  | nil => intro e he; cases he
  | cons x xs =>
    intro e he w hw
    have hwS : w ∈ x :: xs := convex_hull_subset (x :: xs) w hw
    dsimp only [convex_hull] at he
    cases haux : giftWrapAux (x :: xs) (xs.foldl lexMin x) (xs.foldl lexMin x)
        ((x :: xs).length + 1) with
    | none =>
      rw [haux] at he
      have hrot : ([xs.foldl lexMin x] : List Point).rotate 1 = [xs.foldl lexMin x] := by
        rw [List.rotate_cons_succ, List.rotate_zero, List.nil_append]
      dsimp only [ringEdges] at he
      rw [hrot] at he
      rcases List.mem_singleton.mp (by simpa using he) with rfl
      exact le_of_eq (cross_self _ w)
    | some l =>
      rw [haux] at he
      have hchain := giftWrapAux_chain (x :: xs) _ _ _ _ haux
      have hrot : (xs.foldl lexMin x :: l).rotate 1 = l ++ [xs.foldl lexMin x] := by
        rw [List.rotate_cons_succ, List.rotate_zero]
      have he' : e ∈ (xs.foldl lexMin x :: l).zip (l ++ [xs.foldl lexMin x]) := by
        dsimp only [ringEdges] at he
        rw [hrot] at he
        simpa using he
      have hall : allRightOf (x :: xs) e.1 e.2 = true := by
        apply chainOk_zip (x :: xs) (xs.foldl lexMin x :: (l ++ [xs.foldl lexMin x])) hchain
        have hz : (xs.foldl lexMin x :: (l ++ [xs.foldl lexMin x])).zip
            (l ++ [xs.foldl lexMin x]) =
            (xs.foldl lexMin x :: l).zip (l ++ [xs.foldl lexMin x]) := by
          rw [show xs.foldl lexMin x :: (l ++ [xs.foldl lexMin x]) =
            (xs.foldl lexMin x :: l) ++ [xs.foldl lexMin x] from rfl]
          exact zip_extend (xs.foldl lexMin x :: l) [xs.foldl lexMin x]
            (l ++ [xs.foldl lexMin x]) (by simp)
        rw [List.tail_cons, hz]
        exact he'
      exact allRightOf_spec hall w hwS

theorem finPt_inj {a b : Point} (h : finPt a = finPt b) : a = b := by
  unfold finPt at h
  rw [Prod.ext_iff] at h
  obtain ⟨h1, h2⟩ := h
  exact Prod.ext (XQ.fin.inj h1) (XQ.fin.inj h2)

theorem allFinite_some_of : ∀ l : List XPoint,
    (∀ p ∈ l, ∃ q : Point, p = finPt q) → ∃ ps, allFinite l = some ps := by
  intro l
  induction l with
  | nil => exact fun _ => ⟨[], rfl⟩
  | cons p l' ih =>
    intro h
    obtain ⟨q, hq⟩ := h p (List.mem_cons_self _ _)
    obtain ⟨ps', hps'⟩ := ih (fun r hr => h r (List.mem_cons_of_mem _ hr))
    subst hq
    obtain ⟨a, b⟩ := q
    exact ⟨(a, b) :: ps', by dsimp only [finPt, allFinite]; rw [hps']; rfl⟩

theorem allFinite_mem : ∀ (l : List XPoint) (ps : List Point),
    allFinite l = some ps → ∀ q ∈ ps, finPt q ∈ l := by
  intro l
  induction l with
  | nil =>
    intro ps h q hq
    cases h
    cases hq
  | cons p l' ih =>
    intro ps h q hq
    obtain ⟨x1, x2⟩ := p
    cases x1 <;> cases x2 <;> try (cases h)
    case fin.fin a b =>
      dsimp only [allFinite] at h
      cases hrec : allFinite l' with
      | none => rw [hrec] at h; cases h
      | some qs =>
        rw [hrec, Option.map_some'] at h
        cases h
        rcases List.mem_cons.mp hq with rfl | hq'
        · exact List.mem_cons_self _ _
        · exact List.mem_cons_of_mem _ (ih qs hrec q hq')

theorem xmul_zero_posInf : xmul (XQ.fin 0) XQ.posInf = XQ.nan := by
  unfold xmul; simp

/-- Counterexample to C1 as stated: the light `(-30, -250)` is strictly
inside the world and coincides with the bottom-left corner of
`obstacleA` (which lies entirely within the world).  The projection of
that corner away from the light is the ray through a zero direction:
its x coordinate is NaN (`0 * ∞`), so it does not lie within the world
boundary, and no well-formed hull polygon is produced. -/
theorem C1_counterexample :
    calculate_shadow_polygon_from_obstacle ((-30 : ℚ), (-250 : ℚ)) obstacleA worldBnd =
      none ∧
    calculate_intersection_to_world_bondary ((-30 : ℚ), (-250 : ℚ))
      ((-30 : ℚ), (-250 : ℚ)) worldBnd = (XQ.nan, XQ.fin 360) ∧
    StrictlyInside ((-30 : ℚ), (-250 : ℚ)) worldBnd ∧
    (∀ v ∈ calculate_vertices obstacleA, WithinBnd v worldBnd) ∧
    ((-30 : ℚ), (-250 : ℚ)) ∈ calculate_vertices obstacleA := by
  refine ⟨?_, ?_, ?_, ?_, ?_⟩ <;> with_unfolding_all decide

/-- C1 (amended): for a light strictly inside the world boundary and an
obstacle whose corners are within the world boundary, provided
additionally that the light coincides with no obstacle corner, the
shadow polygon is the convex hull of (1) the obstacle's corners,
(2) their boundary projections and (3) the occluded world corners (the
finite point list `ps` extracted from `hull_input`); the polygon is
convex and every vertex lies within or on the world boundary. -/
theorem C1_shadow_polygon_hull (light : Point) (obst : Transform2)
    (hin : StrictlyInside light worldBnd)
    (hobst : ∀ v ∈ calculate_vertices obst, WithinBnd v worldBnd)
    (hcorner : ∀ v ∈ calculate_vertices obst, v ≠ light) :
    ∃ ps poly,
      allFinite (hull_input light obst worldBnd) = some ps ∧
      calculate_shadow_polygon_from_obstacle light obst worldBnd = some poly ∧
      poly = convex_hull ps ∧
      ConvexRing poly ∧
      (∀ q ∈ ps, finPt q ∈ hull_input light obst worldBnd) ∧
      (∀ v ∈ poly, WithinBnd v worldBnd) := by
  have hmem : ∀ p ∈ hull_input light obst worldBnd,
      ∃ q : Point, p = finPt q ∧ WithinBnd q worldBnd := by
    intro p hp
    dsimp only [hull_input] at hp
    rcases List.mem_append.mp hp with hp' | hpC
    · rcases List.mem_append.mp hp' with hpA | hpB
      · obtain ⟨v, hv, rfl⟩ := List.mem_map.mp hpA
        exact ⟨v, rfl, hobst v hv⟩
      · obtain ⟨v, hv, rfl⟩ := List.mem_map.mp hpB
        obtain ⟨q, hq, hqin⟩ := rayExit_finite_within light v worldBnd hin (hcorner v hv)
        exact ⟨q, hq, hqin⟩
    · obtain ⟨v, hv, rfl⟩ := List.mem_map.mp hpC
      have hv' : v ∈ WORLD_VERTICES := (List.mem_filter.mp hv).1
      have hbound : ∀ v ∈ WORLD_VERTICES, WithinBnd v worldBnd := by
        with_unfolding_all decide
      exact ⟨v, rfl, hbound v hv'⟩
  obtain ⟨ps, hps⟩ := allFinite_some_of _
    (fun p hp => (hmem p hp).imp (fun q hq => hq.1))
  refine ⟨ps, convex_hull ps, hps, ?_, rfl, convex_hull_convex ps,
    allFinite_mem _ _ hps, ?_⟩
  · dsimp only [calculate_shadow_polygon_from_obstacle]
    rw [hps, Option.map_some']
  · intro v hv
    have hvps : v ∈ ps := convex_hull_subset ps v hv
    obtain ⟨q, hq, hqin⟩ := hmem _ (allFinite_mem _ _ hps v hvps)
    rwa [finPt_inj hq]

/-- Witness for the amended C1 at the spec's concrete scenario: light
`(400, 0)` and the axis-aligned obstacle `obstacleA`. -/
theorem C1_shadow_polygon_hull_witness :
    StrictlyInside ((400 : ℚ), 0) worldBnd ∧
    (∀ v ∈ calculate_vertices obstacleA, WithinBnd v worldBnd) ∧
    (∀ v ∈ calculate_vertices obstacleA, v ≠ ((400 : ℚ), 0)) ∧
    (∃ ps poly,
      allFinite (hull_input ((400 : ℚ), 0) obstacleA worldBnd) = some ps ∧
      calculate_shadow_polygon_from_obstacle ((400 : ℚ), 0) obstacleA worldBnd =
        some poly ∧
      poly = convex_hull ps ∧
      ConvexRing poly ∧
      (∀ q ∈ ps, finPt q ∈ hull_input ((400 : ℚ), 0) obstacleA worldBnd) ∧
      (∀ v ∈ poly, WithinBnd v worldBnd)) :=
  ⟨by with_unfolding_all decide, by with_unfolding_all decide,
    by with_unfolding_all decide,
    C1_shadow_polygon_hull ((400 : ℚ), 0) obstacleA (by with_unfolding_all decide)
      (by with_unfolding_all decide) (by with_unfolding_all decide)⟩

/-- Counterexample to C6 as stated: the light `(0, -200)` lies inside
`obstacleA` (the second conjunct), a degenerate input per the claim,
yet the shadow builder silently returns an ordinary six-vertex polygon
rather than a distinguishable degenerate-geometry failure. -/
theorem C6_counterexample :
    calculate_shadow_polygon_from_obstacle ((0 : ℚ), (-200 : ℚ)) obstacleA worldBnd =
      some [(-480, -360), (-480, 360), (336, 360), (480, 360), (480, -360),
        (-96, -360)] ∧
    pointInConvexPoly (calculate_vertices obstacleA) ((0 : ℚ), (-200 : ℚ)) = true := by
  refine ⟨?_, ?_⟩ <;> with_unfolding_all decide

/-- C6 (amended): the degenerate inputs do not surface a
distinguishable error kind.  The boundary ray caster has no error
result at all: for a zero ray direction (through-point equal to the
light) it returns the plain point whose x coordinate is NaN (`0 * ∞`)
and whose y coordinate is the boundary's max-y edge; and the shadow
builder (see the counterexample) silently returns an ordinary hull
polygon when the light is inside the obstacle. -/
theorem C6_zero_ray_returns_nan_point (u : Point) (wb : Bnd)
    (hin : StrictlyInside u wb) :
    calculate_intersection_to_world_bondary u u wb = (XQ.nan, XQ.fin wb.2.2) := by
  obtain ⟨h1, h2, h3, h4⟩ := hin
  have hf : ¬((0 : ℚ) < 0) := lt_irrefl 0
  dsimp only [calculate_intersection_to_world_bondary]
  rw [sub_self, sub_self, if_neg hf, if_neg hf,
    xdiv_pos_zero (by linarith : (0 : ℚ) < wb.2.1 - u.1),
    xdiv_pos_zero (by linarith : (0 : ℚ) < wb.2.2 - u.2),
    xlt_posInf, if_neg Bool.false_ne_true, if_neg hf, xmul_zero_posInf]
  rfl

/-- Witness for the amended C6 at the light `(0, 0)`. -/
theorem C6_zero_ray_returns_nan_point_witness :
    StrictlyInside (0, 0) worldBnd ∧
    calculate_intersection_to_world_bondary (0, 0) (0, 0) worldBnd =
      (XQ.nan, XQ.fin worldBnd.2.2) :=
  ⟨by with_unfolding_all decide,
    C6_zero_ray_returns_nan_point (0, 0) worldBnd (by with_unfolding_all decide)⟩

/-- Witness for C9 with the concatenation as union primitive, the
constantly-empty intersection primitive, and one light. -/
theorem C9_empty_obstacles_empty_regions_witness :
    (fun a b : GMultiPolygon => a ++ b) [] [] = [] ∧
    (fun _ _ : GMultiPolygon => ([] : GMultiPolygon)) [] [] = [] ∧
    update (fun a b : GMultiPolygon => a ++ b) (fun _ _ => []) [((0 : ℚ), (0 : ℚ))] [] =
      some ([], []) :=
  ⟨rfl, rfl,
    C9_empty_obstacles_empty_regions (fun a b => a ++ b) (fun _ _ => []) ((0 : ℚ), (0 : ℚ))
      [] rfl rfl⟩

end ML
